import Mathlib

/-!
A verification development for `SentenceReader.py`, a PDF keyword-scanning
pipeline.  Text is modelled as `List Char` (ASCII fragment of Python's
Unicode strings).  Each definition is a shallow embedding of the
corresponding Python function or library call used by the source.
-/

set_option autoImplicit false

namespace SentenceReader

/-- Python regex `\s` / `str.strip` whitespace class, restricted to the ASCII
characters the model covers: space, tab, newline, carriage return, vertical
tab and form feed. -/
def pyIsSpace (c : Char) : Bool :=
  c = ' ' || c = '\t' || c = '\n' || c = '\r' || c = '\x0b' || c = '\x0c'

/-- The sentence-terminal punctuation class `[.!?]` of the segmentation
regex at line 72 of the source. -/
def isPunct (c : Char) : Bool :=
  c = '.' || c = '!' || c = '?'

/-- Python regex `\w` (word character), restricted to ASCII: a letter, a
digit, or an underscore. -/
def isWordChar (c : Char) : Bool :=
  c.isAlphanum || c = '_'

/-- Python `str.strip()`: remove leading and trailing whitespace. -/
def pyStrip (s : List Char) : List Char :=
  ((s.dropWhile pyIsSpace).reverse.dropWhile pyIsSpace).reverse

/-- The negative lookbehind `(?<!\w\.\w.)` of the segmentation regex,
evaluated at a split candidate position.  `prev` is the reversed list of
characters before the position, so `prev.get? k` is the character at offset
`-(k+1)`.  The lookbehind pattern matches when the four preceding
characters are: word char, `.`, word char, any char other than newline;
the negative lookbehind forbids the split exactly then. -/
def lookbehindAbbrev (prev : List Char) : Bool :=
  match prev.get? 3, prev.get? 2, prev.get? 1, prev.get? 0 with
  | some a, some b, some c, some d =>
      isWordChar a && b = '.' && isWordChar c && !(d = '\n')
  | _, _, _, _ => false

/-- The negative lookbehind `(?<![A-Z][a-z]\.)` of the segmentation regex:
the three preceding characters are an ASCII uppercase letter, an ASCII
lowercase letter and a period (e.g. `Mr.`). -/
def lookbehindTitle (prev : List Char) : Bool :=
  match prev.get? 2, prev.get? 1, prev.get? 0 with
  | some a, some b, some c => a.isUpper && b.isLower && c = '.'
  | _, _, _ => false

/-- Whether the segmentation regex
`(?<!\w\.\w.)(?<![A-Z][a-z]\.)(?<=[.!?])\s+` matches starting at the
current position: the current character `c` is whitespace, the previous
character is sentence-terminal punctuation, and neither negative
lookbehind forbids the boundary. -/
def splitHere (prev : List Char) (c : Char) : Bool :=
  pyIsSpace c &&
  (match prev.get? 0 with
   | some p => isPunct p
   | none => false) &&
  !lookbehindAbbrev prev &&
  !lookbehindTitle prev

/-- Worker for `re.split` with the segmentation regex.  `prev` is the
reversed consumed input (lookbehind context), `inSep` records whether we
are inside a (greedy, maximal) `\s+` separator run, `acc` is the reversed
current piece and `pieces` the reversed finished pieces. -/
def segGo (prev : List Char) (inSep : Bool) (acc : List Char)
    (pieces : List (List Char)) : List Char → List (List Char)
  | [] => (acc.reverse :: pieces).reverse
  | c :: rs =>
    if inSep && pyIsSpace c then
      segGo (c :: prev) true acc pieces rs
    else if splitHere prev c then
      segGo (c :: prev) true [] (acc.reverse :: pieces) rs
    else
      segGo (c :: prev) false (c :: acc) pieces rs

/-- Line 72 of the source:
`sentences = re.split(r'(?<!\w\.\w.)(?<![A-Z][a-z]\.)(?<=[.!?])\s+', text)`. -/
def segment (text : List Char) : List (List Char) :=
  segGo [] false [] [] text

/-- The word-character status of position `i` of `s`; out-of-range
positions count as non-word (regex `\b` semantics at the string edges). -/
def wordAt (s : List Char) (i : Nat) : Bool :=
  match s.get? i with
  | some c => isWordChar c
  | none => false

/-- Python regex `\b`: a word boundary holds between positions `i-1` and
`i` when exactly one of the two neighbouring characters is a word
character. -/
def wordBoundary (s : List Char) (i : Nat) : Bool :=
  (match i with
   | 0 => false
   | j + 1 => wordAt s j) != wordAt s i

/-- Whether the literal keyword `kw` occurs at position `i` of `s`,
compared case-insensitively (regex flag `re.IGNORECASE`, ASCII folding). -/
def matchAt (kw s : List Char) (i : Nat) : Bool :=
  ((s.drop i).take kw.length).map Char.toLower = kw.map Char.toLower

/-- Lines 77-79 of the source:
`re.search(rf"\b{re.escape(keyword)}\b", sentence, re.IGNORECASE)`
is truthy.  `re.escape` makes the keyword a literal, so the pattern
matches exactly when the keyword occurs somewhere in the sentence,
case-insensitively, with a word boundary on each side. -/
def reSearchWord (kw s : List Char) : Bool :=
  (List.range (s.length + 1)).any fun i =>
    matchAt kw s i && wordBoundary s i && wordBoundary s (i + kw.length)

/-- Python `dict` assignment `d[k] = v`: overwrite the value at an
existing key in place, otherwise append the binding at the end. -/
def dictInsert (d : List (List Char × Nat)) (k : List Char) (v : Nat) :
    List (List Char × Nat) :=
  match d with
  | [] => [(k, v)]
  | (k', v') :: rest =>
    if k' = k then (k', v) :: rest else (k', v') :: dictInsert rest k v

/-- Python `dict` lookup `d.get(k)`. -/
def dictLookup (d : List (List Char × Nat)) (k : List Char) : Option Nat :=
  match d with
  | [] => none
  | (k', v') :: rest => if k' = k then some v' else dictLookup rest k

/-- Python `set.add`: insertion-ordered model of a set of strings. -/
def setInsert (s : List (List Char)) (x : List Char) : List (List Char) :=
  if x ∈ s then s else s ++ [x]

/-- One iteration of the inner sentence loop (lines 78-82): on a regex
match, increment the count and add the stripped sentence to the
document's found-sentence set. -/
def scanStep (kw : List Char) (st : Nat × List (List Char)) (s : List Char) :
    Nat × List (List Char) :=
  if reSearchWord kw s then (st.1 + 1, setInsert st.2 (pyStrip s)) else st

/-- The inner sentence loop for one keyword, threading the per-document
found-sentence set. -/
def scanSents (kw : List Char) (sents : List (List Char))
    (found : List (List Char)) : Nat × List (List Char) :=
  sents.foldl (scanStep kw) (0, found)

/-- One iteration of the outer keyword loop (lines 74-84): scan all
sentences for the keyword, then record the count in the occurrences dict
when it is positive. -/
def anStep (sents : List (List Char))
    (st : List (List Char × Nat) × List (List Char)) (kw : List Char) :
    List (List Char × Nat) × List (List Char) :=
  let r := scanSents kw sents st.2
  (if 0 < r.1 then dictInsert st.1 kw r.1 else st.1, r.2)

/-- Lines 69-86 of the source, `analyze_text_for_keywords`: split the text
into sentences, count matching sentences per keyword, and collect the
matched (stripped) sentences into a per-document set, returned as a
list. -/
def analyze_text_for_keywords (text : List Char)
    (keywords : List (List Char)) :
    List (List Char × Nat) × List (List Char) :=
  List.foldl (anStep (segment text)) ([], []) keywords

/-- Suffix of `s` after the first occurrence of `pat`, or `none` when
`pat` does not occur; used to skip past `://` when parsing a URL. -/
def dropThrough (pat : List Char) : List Char → Option (List Char)
  | [] => if pat = [] then some [] else none
  | c :: rest =>
    if pat.isPrefixOf (c :: rest) then some ((c :: rest).drop pat.length)
    else dropThrough pat rest

/-- `urllib.parse.urlparse(url).path`, modelled for ASCII URLs: strip the
fragment (from the first `#`) and the query (from the first `?`); when the
URL has a `://`, the path starts at the first `/` after the authority,
otherwise the remainder is the path. -/
def urlPath (url : List Char) : List Char :=
  let noQuery := (url.takeWhile (fun c => !(c = '#'))).takeWhile fun c => !(c = '?')
  match dropThrough "://".data noQuery with
  | some rest => rest.dropWhile fun c => !(c = '/')
  | none => noQuery

/-- `os.path.basename`: the part of the path after the last `/`. -/
def basename (p : List Char) : List Char :=
  (p.reverse.takeWhile fun c => !(c = '/')).reverse

/-- Hexadecimal digit value used by percent-decoding. -/
def hexVal (c : Char) : Option Nat :=
  if '0' ≤ c ∧ c ≤ '9' then some (c.toNat - '0'.toNat)
  else if 'a' ≤ c ∧ c ≤ 'f' then some (c.toNat - 'a'.toNat + 10)
  else if 'A' ≤ c ∧ c ≤ 'F' then some (c.toNat - 'A'.toNat + 10)
  else none

/-- `urllib.parse.unquote`, modelled for ASCII escapes: decode each valid
`%XX` escape, leave invalid escapes untouched. -/
def unquote : List Char → List Char
  | '%' :: a :: b :: rest =>
    match hexVal a, hexVal b with
    | some ha, some hb => Char.ofNat (16 * ha + hb) :: unquote rest
    | _, _ => '%' :: unquote (a :: b :: rest)
  | c :: rest => c :: unquote rest
  | [] => []

/-- Lines 35-43 of the source, `extract_filename`: the URL-decoded basename
of the URL's path, or `"Unknown"` when that is empty. -/
def extract_filename (url : List Char) : List Char :=
  let filename := unquote (basename (urlPath url))
  if filename = [] then "Unknown".data else filename

/-- Outcome of one iteration of the `for attempt in range(MAX_RETRIES)`
loop body of `read_pdf_content`: the `urllib.request.urlopen` call raises
(`fetchFail`), the fetch succeeds but `fitz.open`/text extraction raises
(`extractFail`), or both succeed and the loop returns the extracted text
(`success`). -/
inductive AttemptOutcome where
  | fetchFail
  | extractFail
  | success (text : List Char)
  deriving DecidableEq

/-- Observable trace of one `read_pdf_content(url)` call: the returned
value (`None` or the text), how many loop iterations ran, how many
`urlopen` and extraction calls were made, the `time.sleep` delays taken,
and the URLs written to the error log (one per `log_error` call). -/
structure FetchTrace where
  result : Option (List Char)
  attemptsMade : Nat
  fetchCalls : Nat
  extractCalls : Nat
  sleeps : List Nat
  loggedUrls : List (List Char)
  deriving DecidableEq

/-- Line 22 of the source: `MAX_RETRIES = 2`. -/
def MAX_RETRIES : Nat := 2

/-- Line 23 of the source: `RETRY_DELAY = 5`. -/
def RETRY_DELAY : Nat := 5

/-- Lines 50-66 of the source: the retry loop
`for attempt in range(MAX_RETRIES)` of `read_pdf_content`, driven by the
per-attempt outcomes and recursing on the list of attempt indices still
to run (`List.range MAX_RETRIES` at the top).  The source's
`attempt < MAX_RETRIES - 1` test ("is this not the last iteration") is
equivalently `restAttempts ≠ []`.  On a non-final failed attempt the code
sleeps `RETRY_DELAY` and retries (re-fetching and re-extracting); on the
final failed attempt it logs once and returns `None`.  The `[]` case is
the source's fall-through `return None` after the loop (reachable only if
`MAX_RETRIES = 0`), which does not log. -/
def readPdfLoop (outcomes : List AttemptOutcome) (url : List Char) :
    List Nat → FetchTrace
  | [] => ⟨none, 0, 0, 0, [], []⟩
  | attempt :: restAttempts =>
    match outcomes.getD attempt AttemptOutcome.fetchFail with
    | AttemptOutcome.success t => ⟨some t, 1, 1, 1, [], []⟩
    | AttemptOutcome.fetchFail =>
      if restAttempts = [] then ⟨none, 1, 1, 0, [], [url]⟩
      else
        let rest := readPdfLoop outcomes url restAttempts
        ⟨rest.result, rest.attemptsMade + 1, rest.fetchCalls + 1,
         rest.extractCalls, RETRY_DELAY :: rest.sleeps, rest.loggedUrls⟩
    | AttemptOutcome.extractFail =>
      if restAttempts = [] then ⟨none, 1, 1, 1, [], [url]⟩
      else
        let rest := readPdfLoop outcomes url restAttempts
        ⟨rest.result, rest.attemptsMade + 1, rest.fetchCalls + 1,
         rest.extractCalls + 1, RETRY_DELAY :: rest.sleeps, rest.loggedUrls⟩

/-- Lines 45-66 of the source, `read_pdf_content(url)`, as a function of
the environment's per-attempt outcomes (attempts beyond the given list
fail at fetch). -/
def read_pdf_content (outcomes : List AttemptOutcome) (url : List Char) :
    FetchTrace :=
  readPdfLoop outcomes url (List.range MAX_RETRIES)

/-- Whether an attempt outcome is a success. -/
def isSuccess : AttemptOutcome → Bool
  | AttemptOutcome.success _ => true
  | _ => false

/-- One URL of a run together with the network/parser behaviour it meets:
`attempts.getD i` is the outcome of the `i`-th fetch-and-extract attempt. -/
structure UrlRun where
  url : List Char
  attempts : List AttemptOutcome
  deriving DecidableEq

/-- Payload of a result row (lines 133-144): either the per-keyword
occurrence dict spread into the row, or the `"No Keywords Found"` sentinel
column. -/
inductive RowPayload where
  | occs (m : List (List Char × Nat))
  | noKeywordsFound
  deriving DecidableEq

/-- One entry of the `results` list of `process_filings`. -/
structure Row where
  url : List Char
  name : List Char
  payload : RowPayload
  deriving DecidableEq

/-- Observable state of a `process_filings` run: the result rows, the
run-wide extracted-sentence set (insertion-ordered model of the Python
set), the URLs logged to the error log, and the sleeps performed. -/
structure RunResult where
  results : List Row
  sentences : List (List Char)
  loggedUrls : List (List Char)
  sleeps : List Nat
  deriving DecidableEq

/-- Lines 124-126 of the source: `display_name` is the company name at the
URL's index when the names list is non-empty (Python truthiness of
`company_names`) and long enough, otherwise the filename extracted from
the URL. -/
def displayNameFor (names : List (List Char)) (idx : Nat)
    (url : List Char) : List Char :=
  if names ≠ [] ∧ idx < names.length then names.getD idx []
  else extract_filename url

/-- Lines 128-148 of the source: the body of the per-URL loop after the
fetch, applied to the loop state.  `if text:` is Python truthiness, so
both a `None` result and an empty extracted text skip the row; the error
log receives whatever `read_pdf_content` logged, and `time.sleep(1)` runs
after every document. -/
def processApply (keywords : List (List Char)) (dn url : List Char)
    (res : Option (List Char)) (logged : List (List Char))
    (slept : List Nat) (st : RunResult) : RunResult :=
  match res with
  | some text =>
    if text = [] then
      ⟨st.results, st.sentences, st.loggedUrls ++ logged,
       st.sleeps ++ slept ++ [1]⟩
    else
      let r := analyze_text_for_keywords text keywords
      ⟨st.results ++
         [⟨url, dn, if r.1 = [] then RowPayload.noKeywordsFound
                    else RowPayload.occs r.1⟩],
       r.2.foldl setInsert st.sentences,
       st.loggedUrls ++ logged,
       st.sleeps ++ slept ++ [1]⟩
  | none =>
    ⟨st.results, st.sentences, st.loggedUrls ++ logged,
     st.sleeps ++ slept ++ [1]⟩

/-- One iteration of the per-URL loop of `process_filings` (lines
120-148). -/
def processStep (keywords names : List (List Char)) (idx : Nat)
    (u : UrlRun) (st : RunResult) : RunResult :=
  let ft := read_pdf_content u.attempts u.url
  processApply keywords (displayNameFor names idx u.url) u.url
    ft.result ft.loggedUrls ft.sleeps st

/-- The per-URL loop of `process_filings`, carrying the enumeration
index. -/
def processGo (keywords names : List (List Char)) :
    Nat → List UrlRun → RunResult → RunResult
  | _, [], st => st
  | idx, u :: rest, st =>
    processGo keywords names (idx + 1) rest (processStep keywords names idx u st)

/-- Lines 106-150 of the source, `process_filings`: iterate the URLs in
order (the URL-file reading is modelled by passing the list directly),
accumulating rows, the run-wide sentence set, error-log entries and
sleeps. -/
def process_filings (urls : List UrlRun) (keywords names : List (List Char)) :
    RunResult :=
  processGo keywords names 0 urls ⟨[], [], [], []⟩

/-- A URL whose `read_pdf_content` returns a non-empty text (the
documents that produce a table row). -/
def fetchSucceedsNonempty (u : UrlRun) : Bool :=
  match (read_pdf_content u.attempts u.url).result with
  | some t => !(t = [])
  | none => false

/-- A URL whose `read_pdf_content` returns `None` (hard failure after all
retries). -/
def fetchFails (u : UrlRun) : Bool :=
  (read_pdf_content u.attempts u.url).result.isNone

/-! ### Helper lemmas: the Python dict and set models -/

lemma dictLookup_dictInsert (d : List (List Char × Nat)) (k q : List Char)
    (v : Nat) :
    dictLookup (dictInsert d k v) q = if k = q then some v else dictLookup d q := by
  induction d with
  | nil =>
    by_cases h : k = q <;> simp [dictInsert, dictLookup, h]
  | cons p rest ih =>
    obtain ⟨k', v'⟩ := p
    by_cases h1 : k' = k
    · subst h1
      by_cases h2 : k' = q <;> simp [dictInsert, dictLookup, h2]
    · by_cases h2 : k' = q
      · subst h2
        have hne : k ≠ k' := fun h => h1 h.symm
        simp [dictInsert, dictLookup, h1, hne]
      · simp [dictInsert, dictLookup, h1, h2, ih]

lemma dictInsert_of_lookup {d : List (List Char × Nat)} {k : List Char}
    {v : Nat} (h : dictLookup d k = some v) : dictInsert d k v = d := by
  induction d with
  | nil => simp [dictLookup] at h
  | cons p rest ih =>
    obtain ⟨k', v'⟩ := p
    by_cases h1 : k' = k
    · subst h1
      simp [dictLookup] at h
      simp [dictInsert, h]
    · simp [dictLookup, h1] at h
      simp [dictInsert, h1, ih h]

lemma mem_dictInsert {d : List (List Char × Nat)} {k : List Char} {v : Nat}
    {p : List Char × Nat} (h : p ∈ dictInsert d k v) :
    p ∈ d ∨ p = (k, v) := by
  induction d with
  | nil => simp [dictInsert] at h; simp [h]
  | cons q rest ih =>
    obtain ⟨k', v'⟩ := q
    by_cases h1 : k' = k
    · subst h1
      simp [dictInsert] at h
      rcases h with h | h
      · right; simp [h]
      · left; simp [h]
    · simp [dictInsert, h1] at h
      rcases h with h | h
      · left; simp [h]
      · rcases ih h with h' | h'
        · left; simp [h']
        · right; exact h'

lemma setInsert_of_mem {s : List (List Char)} {x : List Char} (h : x ∈ s) :
    setInsert s x = s := by
  simp [setInsert, h]

lemma mem_setInsert_self (s : List (List Char)) (x : List Char) :
    x ∈ setInsert s x := by
  by_cases h : x ∈ s <;> simp [setInsert, h]

lemma mem_setInsert_of_mem {s : List (List Char)} {y : List Char}
    (x : List Char) (h : y ∈ s) : y ∈ setInsert s x := by
  by_cases hx : x ∈ s <;> simp [setInsert, hx, h]

lemma setInsert_nodup {s : List (List Char)} {x : List Char}
    (h : s.Nodup) : (setInsert s x).Nodup := by
  by_cases hx : x ∈ s <;> simp [setInsert, hx, h, List.nodup_append]

lemma foldl_setInsert_nodup (xs : List (List Char)) :
    ∀ {s : List (List Char)}, s.Nodup → (xs.foldl setInsert s).Nodup := by
  induction xs with
  | nil => intro s h; simpa using h
  | cons x xs ih =>
    intro s h
    simpa using ih (setInsert_nodup h)

lemma foldl_setInsert_of_subset (xs : List (List Char)) :
    ∀ {s : List (List Char)}, (∀ x ∈ xs, x ∈ s) → xs.foldl setInsert s = s := by
  induction xs with
  | nil => intro s _; rfl
  | cons x xs ih =>
    intro s h
    have hx : x ∈ s := h x (by simp)
    have : setInsert s x = s := setInsert_of_mem hx
    simp only [List.foldl_cons, this]
    exact ih fun y hy => h y (by simp [hy])

lemma mem_foldl_setInsert (xs : List (List Char)) :
    ∀ {s : List (List Char)} {y : List Char}, y ∈ s → y ∈ xs.foldl setInsert s := by
  induction xs with
  | nil => intro s y h; simpa using h
  | cons x xs ih =>
    intro s y h
    simpa using ih (mem_setInsert_of_mem x h)

lemma mem_foldl_setInsert_of_mem (xs : List (List Char)) :
    ∀ {s : List (List Char)} {x : List Char}, x ∈ xs → x ∈ xs.foldl setInsert s := by
  induction xs with
  | nil => intro s x h; simp at h
  | cons z xs ih =>
    intro s x h
    rcases List.mem_cons.mp h with h | h
    · subst h
      exact mem_foldl_setInsert xs (mem_setInsert_self s x)
    · simpa using ih h

/-! ### Helper lemmas: the keyword scan -/

lemma scan_fst (kw : List Char) (sents : List (List Char)) :
    ∀ (n : Nat) (f : List (List Char)),
      (sents.foldl (scanStep kw) (n, f)).1 =
        n + (sents.filter (reSearchWord kw)).length := by
  induction sents with
  | nil => intro n f; simp
  | cons s sents ih =>
    intro n f
    by_cases h : reSearchWord kw s <;>
      simp [scanStep, h, ih, Nat.add_assoc, Nat.add_comm 1]

lemma scan_snd (kw : List Char) (sents : List (List Char)) :
    ∀ (n : Nat) (f : List (List Char)),
      (sents.foldl (scanStep kw) (n, f)).2 =
        ((sents.filter (reSearchWord kw)).map pyStrip).foldl setInsert f := by
  induction sents with
  | nil => intro n f; simp
  | cons s sents ih =>
    intro n f
    by_cases h : reSearchWord kw s <;> simp [scanStep, h, ih]

lemma anStep_eq (sents : List (List Char))
    (st : List (List Char × Nat) × List (List Char)) (kw : List Char) :
    anStep sents st kw =
      ((if 0 < (sents.filter (reSearchWord kw)).length
        then dictInsert st.1 kw ((sents.filter (reSearchWord kw)).length)
        else st.1),
       ((sents.filter (reSearchWord kw)).map pyStrip).foldl setInsert st.2) := by
  simp [anStep, scanSents, scan_fst, scan_snd]

lemma lookup_foldl_anStep (sents : List (List Char)) :
    ∀ (l : List (List Char)) (occ : List (List Char × Nat))
      (f : List (List Char)) (kw : List Char),
      dictLookup (List.foldl (anStep sents) (occ, f) l).1 kw =
        if kw ∈ l ∧ 0 < (sents.filter (reSearchWord kw)).length
        then some ((sents.filter (reSearchWord kw)).length)
        else dictLookup occ kw := by
  intro l
  induction l with
  | nil => intro occ f kw; simp
  | cons k' l ih =>
    intro occ f kw
    rw [List.foldl_cons, anStep_eq, ih]
    by_cases hcnt : 0 < (sents.filter (reSearchWord kw)).length
    · by_cases hl : kw ∈ l
      · rw [if_pos ⟨hl, hcnt⟩, if_pos ⟨List.mem_cons_of_mem _ hl, hcnt⟩]
      · have hl' : ¬(kw ∈ l ∧ 0 < (sents.filter (reSearchWord kw)).length) :=
          fun h => hl h.1
        rw [if_neg hl']
        by_cases hk : kw = k'
        · subst hk
          rw [if_pos hcnt, dictLookup_dictInsert, if_pos rfl,
            if_pos ⟨List.mem_cons_self _ _, hcnt⟩]
        · have hout : ¬(kw ∈ k' :: l ∧
              0 < (sents.filter (reSearchWord kw)).length) := by
            intro h
            rcases List.mem_cons.mp h.1 with h' | h'
            exacts [hk h', hl h']
          rw [if_neg hout]
          by_cases hck : 0 < (sents.filter (reSearchWord k')).length
          · have hk' : ¬k' = kw := fun h => hk h.symm
            rw [if_pos hck, dictLookup_dictInsert, if_neg hk']
          · rw [if_neg hck]
    · have hl' : ¬(kw ∈ l ∧ 0 < (sents.filter (reSearchWord kw)).length) :=
        fun h => hcnt h.2
      have hout : ¬(kw ∈ k' :: l ∧ 0 < (sents.filter (reSearchWord kw)).length) :=
        fun h => hcnt h.2
      rw [if_neg hl', if_neg hout]
      by_cases hck : 0 < (sents.filter (reSearchWord k')).length
      · have hk : ¬k' = kw := fun h => hcnt (h ▸ hck)
        rw [if_pos hck, dictLookup_dictInsert, if_neg hk]
      · rw [if_neg hck]

lemma mem_foldl_anStep (sents : List (List Char)) :
    ∀ (l : List (List Char)) (occ : List (List Char × Nat))
      (f : List (List Char)) (k : List Char) (v : Nat),
      (k, v) ∈ (List.foldl (anStep sents) (occ, f) l).1 →
        (k, v) ∈ occ ∨ (k ∈ l ∧ 1 ≤ v ∧ v ≤ sents.length) := by
  intro l
  induction l with
  | nil => intro occ f k v h; simp at h; exact Or.inl h
  | cons k' l ih =>
    intro occ f k v h
    rw [List.foldl_cons, anStep_eq] at h
    rcases ih _ _ _ _ h with h' | h'
    · by_cases hc : 0 < (sents.filter (reSearchWord k')).length
      · rw [if_pos hc] at h'
        rcases mem_dictInsert h' with h'' | h''
        · exact Or.inl h''
        · right
          have hk : k = k' := congrArg Prod.fst h'' |>.trans rfl
          have hv : v = (sents.filter (reSearchWord k')).length :=
            congrArg Prod.snd h''
          refine ⟨by simp [hk], by omega, ?_⟩
          rw [hv]
          exact le_trans (List.length_filter_le _ _) (le_refl _)
      · rw [if_neg hc] at h'
        exact Or.inl h'
    · exact Or.inr ⟨List.mem_cons_of_mem _ h'.1, h'.2⟩

/-- The state invariant used to show that re-processing a keyword changes
nothing: once `kw` has been processed, its count is recorded (when
positive) and all its matched stripped sentences are in the found set. -/
def dupInv (sents : List (List Char)) (kw : List Char)
    (st : List (List Char × Nat) × List (List Char)) : Prop :=
  (0 < (sents.filter (reSearchWord kw)).length →
    dictLookup st.1 kw = some ((sents.filter (reSearchWord kw)).length)) ∧
  ∀ x ∈ (sents.filter (reSearchWord kw)).map pyStrip, x ∈ st.2

lemma dupInv_anStep_self (sents : List (List Char)) (kw : List Char)
    (st : List (List Char × Nat) × List (List Char)) :
    dupInv sents kw (anStep sents st kw) := by
  rw [anStep_eq]
  constructor
  · intro hc
    simp [hc, dictLookup_dictInsert]
  · intro x hx
    exact mem_foldl_setInsert_of_mem _ hx

lemma dupInv_anStep_preserve (sents : List (List Char)) (kw k' : List Char)
    {st : List (List Char × Nat) × List (List Char)}
    (h : dupInv sents kw st) : dupInv sents kw (anStep sents st k') := by
  rw [anStep_eq]
  constructor
  · intro hc
    by_cases hck : 0 < (sents.filter (reSearchWord k')).length
    · simp only [if_pos hck, dictLookup_dictInsert]
      by_cases hk : k' = kw
      · subst hk; simp [h.1 hc]
      · simp [hk, h.1 hc]
    · simp only [if_neg hck]
      exact h.1 hc
  · intro x hx
    exact mem_foldl_setInsert _ (h.2 x hx)

lemma dupInv_foldl_preserve (sents : List (List Char)) (kw : List Char) :
    ∀ (l : List (List Char)) {st : List (List Char × Nat) × List (List Char)},
      dupInv sents kw st → dupInv sents kw (List.foldl (anStep sents) st l) := by
  intro l
  induction l with
  | nil => intro st h; simpa using h
  | cons k' l ih =>
    intro st h
    rw [List.foldl_cons]
    exact ih (dupInv_anStep_preserve sents kw k' h)

lemma dupInv_foldl_establish (sents : List (List Char)) (kw : List Char) :
    ∀ (l : List (List Char)) (st : List (List Char × Nat) × List (List Char)),
      kw ∈ l → dupInv sents kw (List.foldl (anStep sents) st l) := by
  intro l
  induction l with
  | nil => intro st h; simp at h
  | cons k' l ih =>
    intro st h
    rw [List.foldl_cons]
    rcases List.mem_cons.mp h with h | h
    · subst h
      exact dupInv_foldl_preserve sents kw l (dupInv_anStep_self sents kw st)
    · exact ih _ h

lemma anStep_noop (sents : List (List Char)) (kw : List Char)
    {st : List (List Char × Nat) × List (List Char)}
    (h : dupInv sents kw st) : anStep sents st kw = st := by
  rw [anStep_eq]
  by_cases hc : 0 < (sents.filter (reSearchWord kw)).length
  · rw [if_pos hc, dictInsert_of_lookup (h.1 hc),
      foldl_setInsert_of_subset _ h.2]
  · have hnil : sents.filter (reSearchWord kw) = [] := by
      rcases List.eq_nil_or_concat (sents.filter (reSearchWord kw)) with h' | ⟨_, _, h'⟩
      · exact h'
      · exfalso; apply hc; simp [h']
    rw [if_neg hc, hnil]
    simp

/-! ### Helper lemmas: the fetch retry loop and the orchestrator -/

lemma read_pdf_content_eval (o : List AttemptOutcome) (u : List Char) :
    read_pdf_content o u = readPdfLoop o u [0, 1] := rfl

lemma readPdf_logged_of_none {o : List AttemptOutcome} {u : List Char}
    (h : (read_pdf_content o u).result = none) :
    (read_pdf_content o u).loggedUrls = [u] := by
  rw [read_pdf_content_eval] at h ⊢
  cases h0 : o.getD 0 AttemptOutcome.fetchFail <;>
    cases h1 : o.getD 1 AttemptOutcome.fetchFail <;>
      simp_all [readPdfLoop, h0, h1]

lemma readPdf_logged_of_some {o : List AttemptOutcome} {u t : List Char}
    (h : (read_pdf_content o u).result = some t) :
    (read_pdf_content o u).loggedUrls = [] := by
  rw [read_pdf_content_eval] at h ⊢
  cases h0 : o.getD 0 AttemptOutcome.fetchFail <;>
    cases h1 : o.getD 1 AttemptOutcome.fetchFail <;>
      simp_all [readPdfLoop, h0, h1]

lemma not_isSuccess_cases {a : AttemptOutcome} (h : isSuccess a = false) :
    a = AttemptOutcome.fetchFail ∨ a = AttemptOutcome.extractFail := by
  cases a <;> simp [isSuccess] at h ⊢

lemma readPdf_allfail {o : List AttemptOutcome} (u : List Char)
    (h : ∀ i, i < MAX_RETRIES →
      isSuccess (o.getD i AttemptOutcome.fetchFail) = false) :
    (read_pdf_content o u).result = none ∧
    (read_pdf_content o u).attemptsMade = MAX_RETRIES ∧
    (read_pdf_content o u).sleeps = [RETRY_DELAY] ∧
    (read_pdf_content o u).loggedUrls = [u] := by
  have h0 := not_isSuccess_cases (h 0 (by norm_num [MAX_RETRIES]))
  have h1 := not_isSuccess_cases (h 1 (by norm_num [MAX_RETRIES]))
  rw [read_pdf_content_eval]
  clear h
  rcases h0 with hc0 | hc0 <;> rcases h1 with hc1 | hc1 <;>
    simp_all [readPdfLoop, MAX_RETRIES, RETRY_DELAY]

lemma processStep_results (k n : List (List Char)) (i : Nat) (u : UrlRun)
    (st : RunResult) :
    (processStep k n i u st).results.length =
      st.results.length + (if fetchSucceedsNonempty u then 1 else 0) := by
  unfold processStep
  cases hr : (read_pdf_content u.attempts u.url).result with
  | none => simp [processApply, fetchSucceedsNonempty, hr]
  | some t =>
    by_cases ht : t = [] <;>
      simp [processApply, fetchSucceedsNonempty, hr, ht]

lemma processStep_logged (k n : List (List Char)) (i : Nat) (u : UrlRun)
    (st : RunResult) :
    (processStep k n i u st).loggedUrls.length =
      st.loggedUrls.length + (if fetchFails u then 1 else 0) := by
  unfold processStep
  cases hr : (read_pdf_content u.attempts u.url).result with
  | none =>
    simp [processApply, fetchFails, hr, readPdf_logged_of_none hr]
  | some t =>
    by_cases ht : t = [] <;>
      simp [processApply, fetchFails, hr, ht, readPdf_logged_of_some hr]

lemma processStep_sentences_nodup (k n : List (List Char)) (i : Nat)
    (u : UrlRun) {st : RunResult} (h : st.sentences.Nodup) :
    (processStep k n i u st).sentences.Nodup := by
  unfold processStep
  cases hr : (read_pdf_content u.attempts u.url).result with
  | none => simpa [processApply, hr] using h
  | some t =>
    by_cases ht : t = []
    · simpa [processApply, hr, ht] using h
    · simpa [processApply, hr, ht] using
        foldl_setInsert_nodup (analyze_text_for_keywords t k).2 h

lemma processGo_results (k n : List (List Char)) :
    ∀ (us : List UrlRun) (i : Nat) (st : RunResult),
      (processGo k n i us st).results.length =
        st.results.length + (us.filter fetchSucceedsNonempty).length := by
  intro us
  induction us with
  | nil => intro i st; simp [processGo]
  | cons u us ih =>
    intro i st
    rw [processGo, ih, processStep_results]
    by_cases hu : fetchSucceedsNonempty u <;> simp [hu] <;> try omega

lemma processGo_logged (k n : List (List Char)) :
    ∀ (us : List UrlRun) (i : Nat) (st : RunResult),
      (processGo k n i us st).loggedUrls.length =
        st.loggedUrls.length + (us.filter fetchFails).length := by
  intro us
  induction us with
  | nil => intro i st; simp [processGo]
  | cons u us ih =>
    intro i st
    rw [processGo, ih, processStep_logged]
    by_cases hu : fetchFails u <;> simp [hu] <;> try omega

lemma processGo_sentences_nodup (k n : List (List Char)) :
    ∀ (us : List UrlRun) (i : Nat) {st : RunResult},
      st.sentences.Nodup → (processGo k n i us st).sentences.Nodup := by
  intro us
  induction us with
  | nil => intro i st h; simpa [processGo] using h
  | cons u us ih =>
    intro i st h
    rw [processGo]
    exact ih _ (processStep_sentences_nodup k n i u h)

/-! ### Claim theorems -/

/-- Claim C1, counterexample: a URL whose fetch and extraction succeed but
yield empty text is silently dropped — the run produces neither a table
row nor an error-log entry for it, refuting the claim that every URL
yields exactly one row or a logged failure "including documents whose
fetch and extraction succeed but yield empty text". -/
theorem claim1_counterexample :
    (process_filings [⟨"u".data, [AttemptOutcome.success []]⟩]
      ["cat".data] []).results = [] ∧
    (process_filings [⟨"u".data, [AttemptOutcome.success []]⟩]
      ["cat".data] []).loggedUrls = [] ∧
    (read_pdf_content [AttemptOutcome.success []] "u".data).result = some [] := by
  decide

/-- Claim C1, amended: every URL yields exactly one row (when its fetched
text is non-empty) or exactly one logged failure (when the fetch/extract
hard-fails), except that a URL whose extraction succeeds with empty text
yields neither; the number of rows equals the number of URLs whose fetch
and extraction succeed with non-empty text, and the number of log entries
equals the number of hard-failed URLs. -/
theorem claim1_amended (urls : List UrlRun) (keywords names : List (List Char)) :
    (process_filings urls keywords names).results.length =
      (urls.filter fetchSucceedsNonempty).length ∧
    (process_filings urls keywords names).loggedUrls.length =
      (urls.filter fetchFails).length := by
  unfold process_filings
  exact ⟨by simpa using processGo_results keywords names urls 0 ⟨[], [], [], []⟩,
    by simpa using processGo_logged keywords names urls 0 ⟨[], [], [], []⟩⟩

/-- Claim C2: the count recorded for a keyword equals the number of
sentences of the raw segmented sentence sequence that match it (not the
number of occurrences inside sentences), and a keyword is a key of the
returned mapping exactly when it is in the keyword list and that count is
positive. -/
theorem claim2_count_semantics (text : List Char)
    (keywords : List (List Char)) (kw : List Char) :
    dictLookup (analyze_text_for_keywords text keywords).1 kw =
      if kw ∈ keywords ∧ 0 < ((segment text).filter (reSearchWord kw)).length
      then some (((segment text).filter (reSearchWord kw)).length)
      else none := by
  unfold analyze_text_for_keywords
  rw [lookup_foldl_anStep]
  simp [dictLookup]

/-- Claim C3: keyword matching is whole-word, case-insensitive and
literal — a sentence matches exactly when the keyword text occurs in it,
compared case-insensitively, with a word boundary on each side; keyword
"cat" does not match "concatenate the strings." but matches
"The cat sat.", and a regex metacharacter in the keyword is taken
literally ("c.t" does not match "The cat sat."). -/
theorem claim3_whole_word_matching :
    (∀ (kw s : List Char),
      reSearchWord kw s = true ↔
        ∃ i, i + kw.length ≤ s.length ∧
          ((s.drop i).take kw.length).map Char.toLower = kw.map Char.toLower ∧
          wordBoundary s i = true ∧ wordBoundary s (i + kw.length) = true) ∧
    reSearchWord "cat".data "concatenate the strings.".data = false ∧
    reSearchWord "cat".data "The cat sat.".data = true ∧
    reSearchWord "c.t".data "The cat sat.".data = false := by
  refine ⟨?_, by decide, by decide, by decide⟩
  intro kw s
  constructor
  · intro h
    rw [reSearchWord, List.any_eq_true] at h
    obtain ⟨i, hi, hmatch⟩ := h
    rw [List.mem_range] at hi
    simp only [Bool.and_eq_true, matchAt, decide_eq_true_eq] at hmatch
    obtain ⟨⟨hm, hb1⟩, hb2⟩ := hmatch
    refine ⟨i, ?_, hm, hb1, hb2⟩
    have hlen := congrArg List.length hm
    simp only [List.length_map, List.length_take, List.length_drop] at hlen
    omega
  · rintro ⟨i, hle, hm, hb1, hb2⟩
    rw [reSearchWord, List.any_eq_true]
    refine ⟨i, List.mem_range.mpr (by omega), ?_⟩
    simp [matchAt, hm, hb1, hb2]

/-- Claim C4, counterexample: the segmenter does split after a single
capital letter followed by a period — "A. Smith went home. He left."
yields three sentences, not the two the claimed abbreviation suppression
("a capitalized letter plus period such as A. Smith") would require; the
`[A-Z][a-z]\.` lookbehind needs a capital AND a lowercase letter before
the period. -/
theorem claim4_counterexample :
    segment "A. Smith went home. He left.".data =
      ["A.".data, "Smith went home.".data, "He left.".data] ∧
    (segment "A. Smith went home. He left.".data).length ≠ 2 := by
  decide

/-- Claim C4, amended: the segmenter splits on `.`, `!` or `?` followed
by whitespace, except when the terminal character is preceded by a
word-char/period/word-char sequence (e.g. "U.S.") or the three characters
ending at the boundary are capital letter, lowercase letter, period
(e.g. "Mr."); single-capital abbreviations like "A." are NOT suppressed.
In particular "Mr. Smith went home. He left." splits into exactly the two
sentences "Mr. Smith went home." and "He left.". -/
theorem claim4_amended :
    segment "Mr. Smith went home. He left.".data =
      ["Mr. Smith went home.".data, "He left.".data] ∧
    segment "The U.S. economy grew. It did.".data =
      ["The U.S. economy grew.".data, "It did.".data] ∧
    segment "One. Two! Three? Four".data =
      ["One.".data, "Two!".data, "Three?".data, "Four".data] := by
  decide

/-- Claim C5, counterexample: when the fetch succeeds but extraction
raises on both attempts, the code performs TWO extraction attempts and
TWO fetches (the whole fetch-and-extract body is retried), refuting
"exactly one extraction attempt (no repeated fetch or extraction)". -/
theorem claim5_counterexample :
    (read_pdf_content [AttemptOutcome.extractFail, AttemptOutcome.extractFail]
      "u".data).extractCalls = 2 ∧
    (read_pdf_content [AttemptOutcome.extractFail, AttemptOutcome.extractFail]
      "u".data).fetchCalls = 2 := by
  decide

/-- Claim C5, amended: an extraction failure is caught and handled
exactly like a fetch failure: the combined fetch-and-extract attempt is
retried up to `MAX_RETRIES` total attempts (re-fetching and re-extracting
each time, with the fixed delay between attempts), after which exactly
one error-log entry is written and the document is skipped (result
`None`), with no uncaught propagation. -/
theorem claim5_amended (o : List AttemptOutcome) (u : List Char)
    (h0 : o.getD 0 AttemptOutcome.fetchFail = AttemptOutcome.extractFail)
    (h1 : o.getD 1 AttemptOutcome.fetchFail = AttemptOutcome.extractFail) :
    (read_pdf_content o u).result = none ∧
    (read_pdf_content o u).attemptsMade = MAX_RETRIES ∧
    (read_pdf_content o u).fetchCalls = MAX_RETRIES ∧
    (read_pdf_content o u).extractCalls = MAX_RETRIES ∧
    (read_pdf_content o u).sleeps = [RETRY_DELAY] ∧
    (read_pdf_content o u).loggedUrls = [u] := by
  rw [read_pdf_content_eval]
  simp_all [readPdfLoop, MAX_RETRIES, RETRY_DELAY]

/-- Witness for the amended claim C5 at a concrete input. -/
theorem claim5_witness :
    ([AttemptOutcome.extractFail, AttemptOutcome.extractFail].getD 0
        AttemptOutcome.fetchFail = AttemptOutcome.extractFail) ∧
    ([AttemptOutcome.extractFail, AttemptOutcome.extractFail].getD 1
        AttemptOutcome.fetchFail = AttemptOutcome.extractFail) ∧
    ((read_pdf_content [AttemptOutcome.extractFail, AttemptOutcome.extractFail]
        "u".data).result = none ∧
     (read_pdf_content [AttemptOutcome.extractFail, AttemptOutcome.extractFail]
        "u".data).attemptsMade = MAX_RETRIES ∧
     (read_pdf_content [AttemptOutcome.extractFail, AttemptOutcome.extractFail]
        "u".data).fetchCalls = MAX_RETRIES ∧
     (read_pdf_content [AttemptOutcome.extractFail, AttemptOutcome.extractFail]
        "u".data).extractCalls = MAX_RETRIES ∧
     (read_pdf_content [AttemptOutcome.extractFail, AttemptOutcome.extractFail]
        "u".data).sleeps = [RETRY_DELAY] ∧
     (read_pdf_content [AttemptOutcome.extractFail, AttemptOutcome.extractFail]
        "u".data).loggedUrls = ["u".data]) :=
  ⟨by decide, by decide, claim5_amended _ _ (by decide) (by decide)⟩

/-- Claim C6: for a URL that fails on every attempt, the fetcher makes
exactly `MAX_RETRIES = 2` attempts, sleeps the fixed `RETRY_DELAY = 5`
once (after each failed attempt other than the last), writes exactly one
error-log entry after the final attempt, produces no table row for that
URL, and processing of subsequent URLs continues unaffected. -/
theorem claim6_fetch_failure_behaviour (u : UrlRun) (rest : List UrlRun)
    (keywords names : List (List Char))
    (h : ∀ i, i < MAX_RETRIES →
      isSuccess (u.attempts.getD i AttemptOutcome.fetchFail) = false) :
    MAX_RETRIES = 2 ∧ RETRY_DELAY = 5 ∧
    (read_pdf_content u.attempts u.url).attemptsMade = MAX_RETRIES ∧
    (read_pdf_content u.attempts u.url).sleeps = [RETRY_DELAY] ∧
    (read_pdf_content u.attempts u.url).loggedUrls = [u.url] ∧
    (process_filings (u :: rest) keywords names).results.length =
      (rest.filter fetchSucceedsNonempty).length ∧
    (process_filings (u :: rest) keywords names).loggedUrls.length =
      1 + (rest.filter fetchFails).length := by
  obtain ⟨hres, hatt, hsl, hlog⟩ := readPdf_allfail u.url h
  refine ⟨rfl, rfl, hatt, hsl, hlog, ?_, ?_⟩
  · have hu : fetchSucceedsNonempty u = false := by
      simp [fetchSucceedsNonempty, hres]
    simp [process_filings, processGo_results, hu]
  · have hu : fetchFails u = true := by simp [fetchFails, hres]
    simp [process_filings, processGo_logged, hu]
    omega

/-- Witness for claim C6 at a concrete input: one always-failing URL
followed by one succeeding URL. -/
theorem claim6_witness :
    (∀ i, i < MAX_RETRIES →
      isSuccess ((⟨"u".data, [AttemptOutcome.fetchFail,
        AttemptOutcome.fetchFail]⟩ : UrlRun).attempts.getD i
          AttemptOutcome.fetchFail) = false) ∧
    (process_filings
      [⟨"u".data, [AttemptOutcome.fetchFail, AttemptOutcome.fetchFail]⟩,
       ⟨"v".data, [AttemptOutcome.success "The cat sat.".data]⟩]
      ["cat".data] []).results.length =
      ([⟨"v".data, [AttemptOutcome.success "The cat sat.".data]⟩].filter
        fetchSucceedsNonempty).length :=
  ⟨by decide,
   (claim6_fetch_failure_behaviour
     ⟨"u".data, [AttemptOutcome.fetchFail, AttemptOutcome.fetchFail]⟩
     [⟨"v".data, [AttemptOutcome.success "The cat sat.".data]⟩]
     ["cat".data] [] (by decide)).2.2.2.2.2.1⟩

/-- Claim C7, counterexample: a duplicated keyword does NOT double-count —
running the matcher on ["cat", "cat"] returns exactly the same result as
on ["cat"], with count 1, because the dict assignment overwrites the same
key with the same value. -/
theorem claim7_counterexample :
    analyze_text_for_keywords "The cat sat.".data ["cat".data, "cat".data] =
      analyze_text_for_keywords "The cat sat.".data ["cat".data] ∧
    (analyze_text_for_keywords "The cat sat.".data
      ["cat".data, "cat".data]).1 = [("cat".data, 1)] := by
  decide

/-- Claim C7, amended: keyword uniqueness is not enforced, but a
duplicate occurrence of a keyword later in the list has no effect at
all — the result (counts mapping and matched-sentence set) is identical
to the list without the duplicate. -/
theorem claim7_amended (text : List Char) (l1 l2 : List (List Char))
    (kw : List Char) :
    analyze_text_for_keywords text (l1 ++ kw :: (l2 ++ [kw])) =
      analyze_text_for_keywords text (l1 ++ kw :: l2) := by
  unfold analyze_text_for_keywords
  have hsplit : l1 ++ kw :: (l2 ++ [kw]) = (l1 ++ kw :: l2) ++ [kw] := by simp
  rw [hsplit, List.foldl_append]
  simp only [List.foldl_cons, List.foldl_nil]
  exact anStep_noop _ _ (dupInv_foldl_establish _ kw _ _ (by simp))

/-- Claim C8: the run-wide sentence collection returned by the
orchestrator never contains duplicate sentence text — for every run it is
duplicate-free, and in a concrete run where two documents contain the
byte-identical matching sentence "The cat sat." it contains that sentence
exactly once. -/
theorem claim8_run_wide_dedup :
    (∀ (urls : List UrlRun) (keywords names : List (List Char)),
      ((process_filings urls keywords names).sentences).Nodup) ∧
    (process_filings
      [⟨"a".data, [AttemptOutcome.success "The cat sat.".data]⟩,
       ⟨"b".data, [AttemptOutcome.success "The cat sat.".data]⟩]
      ["cat".data] []).sentences = ["The cat sat.".data] := by
  refine ⟨?_, by decide⟩
  intro urls keywords names
  exact processGo_sentences_nodup keywords names urls 0 (by simp)

/-- Claim C9: the keyword matcher is deterministic — on a fixed text and
non-empty keyword list, two runs yield identical counts and
matched-sentence sets (the embedding is a pure function, so the two runs
coincide definitionally). -/
theorem claim9_determinism (text : List Char) (keywords : List (List Char))
    (_h : keywords ≠ []) :
    analyze_text_for_keywords text keywords =
      analyze_text_for_keywords text keywords := rfl

/-- Witness for claim C9 at a concrete input. -/
theorem claim9_witness :
    (["cat".data] : List (List Char)) ≠ [] ∧
    analyze_text_for_keywords "The cat sat.".data ["cat".data] =
      analyze_text_for_keywords "The cat sat.".data ["cat".data] :=
  ⟨by decide, claim9_determinism _ _ (by decide)⟩

/-- Claim C10: the returned counts mapping is well-formed — every key is
an element of the input keyword list and every value is at least 1 and at
most the number of sentences produced by segmenting the text. -/
theorem claim10_wellformed (text : List Char) (keywords : List (List Char))
    (k : List Char) (v : Nat)
    (h : (k, v) ∈ (analyze_text_for_keywords text keywords).1) :
    k ∈ keywords ∧ 1 ≤ v ∧ v ≤ (segment text).length := by
  unfold analyze_text_for_keywords at h
  rcases mem_foldl_anStep _ keywords [] [] k v h with h' | h'
  · simp at h'
  · exact h'

/-- Witness for claim C10 at a concrete input. -/
theorem claim10_witness :
    ("cat".data, 1) ∈
      (analyze_text_for_keywords "The cat sat.".data ["cat".data]).1 ∧
    ("cat".data ∈ ["cat".data] ∧ 1 ≤ 1 ∧
      1 ≤ (segment "The cat sat.".data).length) :=
  ⟨by decide, claim10_wellformed _ _ _ _ (by decide)⟩

end SentenceReader
